import Mathlib

/-!
# A verification development for the RFYL dice-notation engine

This file gives a shallow embedding, in Lean 4, of the RFYL dice-notation
library (`src/lib.rs` and `src/tokens.rs`): the token classifier, the
shunting-yard parser `parse_into_rpn`, the infix renderer `parse_into_infix`,
the RPN evaluator `solve_rpn_formula`, and the dice resolvers
`resolve_roll_fragment` / `resolve_rolls_vector` / `roll`, together with
theorems about them.

Modelling conventions:
* Rust `i32` values are Lean `Int`s; where the Rust code performs `i32`
  arithmetic that can overflow (release-mode two's-complement wrapping),
  the wrap is made explicit with `wrap32`.
* Rust `panic!` (which aborts the computation; none of this code uses
  `Result`) is modelled as `Except.error` carrying the formatted message.
* The process-global RNG (`rand::thread_rng`) is modelled as an explicit
  oracle `RandSrc`: a function from the draw index and the requested
  half-open interval to the drawn value.  `ValidSrc` says every draw obeys
  the contract of rand's two-argument `gen_range(low, high)`, namely that
  the result lies in the half-open interval `[low, high)`; `gen_range`
  itself aborts when `low >= high`, exactly as rand asserts.
-/

/-- Two's-complement wrap into the `i32` range, modelling Rust release-mode
integer arithmetic. -/
def wrap32 (x : Int) : Int := (x + 2 ^ 31) % 2 ^ 32 - 2 ^ 31

/-- The `i32` range predicate: `-2^31 ≤ n < 2^31`. -/
def InI32 (n : Int) : Prop := -(2 ^ 31) ≤ n ∧ n < 2 ^ 31

/-- The decimal digit character for `m < 10` (used by the model of Rust's
`i32::to_string`). -/
def decDigit (m : Nat) : Char :=
  match m with
  | 0 => '0' | 1 => '1' | 2 => '2' | 3 => '3' | 4 => '4'
  | 5 => '5' | 6 => '6' | 7 => '7' | 8 => '8' | _ => '9'

/-- Little-endian decimal digits of `n`, with explicit fuel so that the
definition is structural (kernel-reducible).  Fuel `n` always suffices. -/
def natToRevDigits : Nat → Nat → List Char
  | 0, _ => []
  | fuel + 1, n => if n = 0 then [] else decDigit (n % 10) :: natToRevDigits fuel (n / 10)

/-- Decimal rendering of a natural number, as Rust's `to_string` produces. -/
def natToString (n : Nat) : String :=
  if n = 0 then "0" else String.mk (natToRevDigits n n).reverse

/-- Model of Rust's `i32::to_string`. -/
def intToString (n : Int) : String :=
  if n < 0 then "-" ++ natToString (-n).toNat else natToString n.toNat

/-- Value of a big-endian decimal digit list (the accumulator loop used by
the model of `str::parse::<i32>`). -/
def digitsVal (l : List Char) : Nat :=
  l.foldl (fun acc c => 10 * acc + (c.toNat - 48)) 0

/-- Model of Rust's `str::parse::<i32>()`: an optional ASCII sign, one or
more ASCII digits, nothing else, and the value must fit in `i32`. -/
def parseI32 (s : String) : Option Int :=
  let p : Int × List Char :=
    match s.data with
    | [] => (1, [])
    | c :: rest =>
      if c = '+' then (1, rest)
      else if c = '-' then (-1, rest)
      else (1, c :: rest)
  if p.2 ≠ [] ∧ p.2.all Char.isDigit then
    let v : Int := p.1 * (digitsVal p.2 : Int)
    if -(2 ^ 31) ≤ v ∧ v ≤ 2 ^ 31 - 1 then some v else none
  else none

/-- The private token classifier of `src/lib.rs` (`fn match_token`). -/
def match_token (token : String) : Int :=
  if token = "/" then 4
  else if token = "÷" then 4
  else if token = "*" then 3
  else if token = "×" then 3
  else if token = "+" then 2
  else if token = "−" then 1
  else if token = "-" then 1
  else if token = "(" then -1
  else if token = ")" then -2
  else if token = "%" then -3
  else 0

/-- The public token classifier of `src/tokens.rs` (`pub fn match_token`). -/
def Tokens.match_token (token : String) : Int :=
  if token = "/" then 4
  else if token = "÷" then 4
  else if token = "*" then 3
  else if token = "×" then 3
  else if token = "+" then 2
  else if token = "−" then 1
  else if token = "-" then 1
  else if token = "(" then -1
  else if token = ")" then -2
  else if token = "%" then -3
  else 0

/-- Removal of every occurrence of a single character, modelling Rust's
`str::replace(pat, "")` for a one-character pattern. -/
def removeChar (c0 : Char) (l : List Char) : List Char :=
  l.filter (fun c => c != c0)

/-- Model of Rust's `str::trim`: drop Unicode `White_Space` characters from
both ends of the string. -/
def isRustWhitespace (c : Char) : Bool :=
  (9 ≤ c.toNat && c.toNat ≤ 13) || c.toNat = 32 || c.toNat = 133 || c.toNat = 160 ||
  c.toNat = 5760 || (8192 ≤ c.toNat && c.toNat ≤ 8202) || c.toNat = 8232 ||
  c.toNat = 8233 || c.toNat = 8239 || c.toNat = 8287 || c.toNat = 12288

/-- Model of Rust's `str::trim`. -/
def rustTrim (s : String) : String :=
  String.mk (((s.data.dropWhile isRustWhitespace).reverse.dropWhile isRustWhitespace).reverse)

/-- State of the shunting-yard scan in `parse_into_rpn`: the output vector,
the accumulating operand fragment, the operator stack (head is the top),
and the `lorb` flag ("last token was a right bracket"). -/
structure ParseState where
  out : List String
  seg : String
  stack : List String
  lorb : Bool

/-- The `while let Some(top) = operator_stack.pop()` loop run on seeing an
operator: pop and emit every stacked token whose precedence is `≥` the
current one, stopping at (and restoring) the first lower one.  Returns the
emitted tokens and the remaining stack. -/
def popGE (precedence : Int) : List String → List String × List String
  | [] => ([], [])
  | top :: rest =>
    if precedence ≤ match_token top then
      let pr := popGE precedence rest
      (top :: pr.1, pr.2)
    else ([], top :: rest)

/-- The pop loop run on a right bracket: emit stacked tokens until a left
bracket is popped (and discarded). -/
def popUntilLeft : List String → List String × List String
  | [] => ([], [])
  | top :: rest =>
    if match_token top = -1 then ([], rest)
    else
      let pr := popUntilLeft rest
      (top :: pr.1, pr.2)

/-- One character step of the `for c in formula.chars()` loop of
`parse_into_rpn`. -/
def parseStep (st : ParseState) (c : Char) : ParseState :=
  let cs := c.toString
  let precedence := match_token cs
  if 0 < precedence then
    if 0 < st.seg.length then
      let pr := popGE precedence st.stack
      { out := (st.out ++ [st.seg]) ++ pr.1, seg := "", stack := cs :: pr.2, lorb := st.lorb }
    else if st.lorb then
      { st with stack := cs :: st.stack }
    else
      { st with seg := st.seg.push c }
  else if precedence = -1 then
    { st with lorb := false, stack := cs :: st.stack }
  else if precedence = -2 then
    let st1 :=
      if 0 < st.seg.length then
        { st with out := st.out ++ [st.seg], seg := "", lorb := true }
      else st
    let pr := popUntilLeft st1.stack
    { st1 with out := st1.out ++ pr.1, stack := pr.2 }
  else
    { st with lorb := false, seg := st.seg.push c }

/-- The shunting-yard parser `parse_into_rpn` of `src/lib.rs`: strip `' '`
and `'_'`, scan character by character, then flush the pending fragment and
the operator stack. -/
def parse_into_rpn (input_formula : String) : List String :=
  let formula := removeChar '_' (removeChar ' ' input_formula.data)
  let fin := formula.foldl parseStep ⟨[], "", [], false⟩
  (if 0 < fin.seg.length then fin.out ++ [fin.seg] else fin.out) ++ fin.stack

/-- Stack loop of `parse_into_infix` (head of the first argument is the top
of the string stack). -/
def infixLoop : List String → List String → Except String (List String)
  | stack, [] => .ok stack
  | stack, e :: rest =>
    if 0 < match_token e then
      match stack with
      | a :: b :: tail =>
        infixLoop (("( " ++ b ++ " " ++ e ++ " " ++ a ++ " )") :: tail) rest
      | _ => .error "Insufficient values in expression start"
    else
      infixLoop (e :: stack) rest

/-- The infix renderer `parse_into_infix` of `src/lib.rs`.  Its `panic!`
calls are modelled as `Except.error` with the panic message. -/
def parse_into_infix (input_formula : List String) : Except String String :=
  match infixLoop [] input_formula with
  | .error m => .error m
  | .ok [s] => .ok s
  | .ok [] => .error "Not enough values in postfix formula. Please verify the formula."
  | .ok _ => .error "Too many values in postfix formula. Please verify the formula."

/-- Replacement of every occurrence of the two-character pattern `[x, y]`
by `repl`, scanning left to right over non-overlapping matches: Rust's
`str::replace` for a two-character pattern. -/
def replacePair (x y : Char) (repl : List Char) : List Char → List Char
  | [] => []
  | [c1] => [c1]
  | c1 :: c2 :: rest2 =>
    if c1 = x ∧ c2 = y then repl ++ replacePair x y repl rest2
    else c1 :: replacePair x y repl (c2 :: rest2)

/-- String wrapper for `replacePair`. -/
def rustReplacePair (x y : Char) (repl : List Char) (s : String) : String :=
  String.mk (replacePair x y repl s.data)

/-- One generated die outcome (`struct DiceRoll`): its number of sides and
its rolled value. -/
structure DiceRoll where
  sides : Int
  result : Int
deriving DecidableEq, Repr

/-- The aggregate result (`struct DiceRolls`): all outcomes, the postfix
formula with dice terms replaced by their sums, and the postfix formula
retaining the original notation. -/
structure DiceRolls where
  rolls : List DiceRoll
  formula : List String
  rolls_formula : List String
deriving DecidableEq, Repr

/-- `DiceRolls::get_sum_of_rolls`: the running `i32` sum of all outcome
values. -/
def DiceRolls.get_sum_of_rolls (d : DiceRolls) : Int :=
  d.rolls.foldl (fun total r => wrap32 (total + r.result)) 0

/-- `DiceRolls::get_formula_string_as_infix`: render the numeric formula as
infix, then replace every `"( "` with `"["` and every `" )"` with `"]"`. -/
def DiceRolls.get_formula_string_as_infix (d : DiceRolls) : Except String String :=
  match parse_into_infix d.formula with
  | .error m => .error m
  | .ok s => .ok (rustReplacePair ' ' ')' [']'] (rustReplacePair '(' ' ' ['['] s))

/-- `DiceRolls::get_rolls_formula_string_as_infix`: the same rendering over
the notation-preserving formula. -/
def DiceRolls.get_rolls_formula_string_as_infix (d : DiceRolls) : Except String String :=
  match parse_into_infix d.rolls_formula with
  | .error m => .error m
  | .ok s => .ok (rustReplacePair ' ' ')' [']'] (rustReplacePair '(' ' ' ['['] s))

/-- A random oracle: draw index, lower bound, upper bound ↦ drawn value. -/
def RandSrc : Type := Nat → Int → Int → Int

/-- A source is valid when every draw for a nonempty interval obeys rand's
`gen_range(low, high)` contract: the value lies in `[low, high)`. -/
def ValidSrc (g : RandSrc) : Prop :=
  ∀ k lo hi, lo < hi → lo ≤ g k lo hi ∧ g k lo hi < hi

/-- The source that always returns the lower bound. -/
def lowSrc : RandSrc := fun _ lo _ => lo

/-- Model of rand's two-argument `Rng::gen_range(low, high)`: a draw from
the half-open interval `[low, high)`, aborting (as rand asserts) when
`low >= high`.  Returns the value and the next draw index. -/
def gen_range (g : RandSrc) (k : Nat) (lo hi : Int) : Except String (Int × Nat) :=
  if lo < hi then .ok (g k lo hi, k + 1) else
    .error "gen_range called with low >= high"

/-- Panic message of `resolve_roll_fragment` for an unparseable count. -/
def countErrMsg (s : String) : String :=
  "Dice count value: `" ++ s ++ "` is invalid"

/-- Panic message of `resolve_roll_fragment` for unparseable sides. -/
def sidesErrMsg (s : String) : String :=
  "Dice sides value: `" ++ s ++ "` is invalid"

/-- The `for _ in 0..dice_count` loop of `resolve_roll_fragment`: draw
`count` outcomes of a `sides`-sided die, accumulating the outcome list and
the running `i32` sum. -/
def rollLoop (g : RandSrc) (sides : Int) : Nat → Nat → Int → Except String (List DiceRoll × Int × Nat)
  | 0, k, sum => .ok ([], sum, k)
  | n + 1, k, sum =>
    match gen_range g k 1 sides with
    | .error m => .error m
    | .ok (v, k1) =>
      match rollLoop g sides n k1 (wrap32 (sum + v)) with
      | .error m => .error m
      | .ok (rolls, s, k2) => .ok (⟨sides, v⟩ :: rolls, s, k2)

/-- The character scan of `resolve_roll_fragment` after the first `'d'` has
been seen: everything up to the first `'d'` goes to the count string, the
whole remainder to the sides string. -/
def splitAux : List Char → List Char × List Char
  | [] => ([], [])
  | c :: rest =>
    if c = 'd' then ([], rest)
    else
      let p := splitAux rest
      (c :: p.1, p.2)

/-- The fragment splitter of `resolve_roll_fragment`: when the fragment
starts with `'d'` the count string is seeded with `"1"`. -/
def splitDice (l : List Char) : List Char × List Char :=
  match l with
  | [] => ([], [])
  | c :: rest => if c = 'd' then (['1'], rest) else splitAux (c :: rest)

/-- `resolve_roll_fragment` of `src/lib.rs`.  A fragment that parses as an
`i32` becomes a single sides-0 outcome; otherwise it is split at the first
`'d'`, the count must parse as an `i32`, the sides must parse as an `i32`
or be the percent marker (then 100), and `count` draws are taken from
`gen_range(1, sides)`. -/
def resolve_roll_fragment (g : RandSrc) (k : Nat) (input_fragment : String) :
    Except String (DiceRolls × Nat) :=
  match parseI32 input_fragment with
  | some n =>
    .ok ({ rolls := [⟨0, n⟩], formula := [intToString n],
           rolls_formula := [input_fragment] }, k)
  | none =>
    let p := splitDice input_fragment.data
    let dice_count_str := String.mk p.1
    let dice_sides_str := String.mk p.2
    match parseI32 dice_count_str with
    | none => .error (countErrMsg dice_count_str)
    | some dice_count =>
      match
        (match parseI32 dice_sides_str with
         | some s => some s
         | none => if match_token dice_sides_str = -3 then some 100 else none) with
      | none => .error (sidesErrMsg dice_sides_str)
      | some dice_sides =>
        match rollLoop g dice_sides dice_count.toNat k 0 with
        | .error m => .error m
        | .ok (rolls, sum, k1) =>
          .ok ({ rolls := rolls, formula := [intToString sum],
                 rolls_formula := [input_fragment] }, k1)

/-- `resolve_rolls_vector` of `src/lib.rs`: walk the postfix vector; copy
operator tokens into both output formulas; resolve every other element,
collecting its outcomes and pushing its rolled sum (numeric formula) and
its original text (notation-preserving formula). -/
def resolve_rolls_vector (g : RandSrc) (k : Nat) :
    List String → Except String (DiceRolls × Nat)
  | [] => .ok (⟨[], [], []⟩, k)
  | e :: rest =>
    if 0 < match_token e then
      match resolve_rolls_vector g k rest with
      | .error m => .error m
      | .ok (d, k1) => .ok (⟨d.rolls, e :: d.formula, e :: d.rolls_formula⟩, k1)
    else
      match resolve_roll_fragment g k e with
      | .error m => .error m
      | .ok (dr, k1) =>
        match resolve_rolls_vector g k1 rest with
        | .error m => .error m
        | .ok (d, k2) =>
          .ok (⟨dr.rolls ++ d.rolls,
                intToString ( DiceRolls.get_sum_of_rolls dr) :: d.formula,
                e :: d.rolls_formula⟩, k2)

/-- The top-level entry point `roll`: trim the input, parse it to postfix,
and resolve every fragment. -/
def roll (g : RandSrc) (input : String) : Except String DiceRolls :=
  match resolve_rolls_vector g 0 (parse_into_rpn (rustTrim input)) with
  | .error m => .error m
  | .ok (d, _) => .ok d

/-- Panic message of `solve_rpn_formula` on a zero divisor. -/
def divZeroMsg (b a : Int) : String :=
  "Divide by zero: `" ++ intToString b ++ " / " ++ intToString a ++ "` is undefined"

/-- Model of `(b as f32 / a as f32).round() as i32` for `a ≠ 0`: the exact
rational quotient rounded to the nearest integer with ties away from zero
(the contract of `f32::round`), saturated to the `i32` range (the contract
of `as i32` on a float).  The `f32` precision loss that the Rust code
incurs for operands of magnitude ≥ 2^24 is not modelled; every division
this development evaluates stays far below that. -/
def divRound (b a : Int) : Int :=
  let s : Int := if b * a < 0 then -1 else 1
  let q : Nat := (2 * b.natAbs + a.natAbs) / (2 * a.natAbs)
  max (-(2 ^ 31)) (min (s * q) (2 ^ 31 - 1))

/-- The token loop of `solve_rpn_formula` (head of the first argument is
the top of the working stack). -/
def solveLoop (stack : List Int) (formula : List String) : Except String (List Int) :=
  match formula with
  | [] => .ok stack
  | e :: rest =>
    match parseI32 e with
    | some n => solveLoop (n :: stack) rest
    | none =>
      match stack with
      | [] => .error "Left hand token in evaluation doesn't exist"
      | [_] => .error "Right hand token in evaluation doesn't exist"
      | a :: b :: tail =>
        if match_token e = 4 then
          if a = 0 then .error (divZeroMsg b a)
          else solveLoop (divRound b a :: tail) rest
        else if match_token e = 3 then solveLoop (wrap32 (b * a) :: tail) rest
        else if match_token e = 2 then solveLoop (wrap32 (b + a) :: tail) rest
        else if match_token e = 1 then solveLoop (wrap32 (b - a) :: tail) rest
        else .error ("Invalid operator: `" ++ e ++ "`")

/-- `solve_rpn_formula` of `src/lib.rs`: evaluate a numeric postfix vector
with a single stack; at the end the top of the stack (or 0 when the stack
is empty) is the result.  `panic!` is modelled as `Except.error`. -/
def solve_rpn_formula (formula : List String) : Except String Int :=
  match solveLoop [] formula with
  | .error m => .error m
  | .ok (t :: _) => .ok t
  | .ok [] => .ok 0

/-- `SpaceUnderscoreInsert s t` says `t` is `s` with extra space or
underscore characters inserted at arbitrary positions (used to state the
parser's insensitivity to the characters it strips). -/
inductive SpaceUnderscoreInsert : List Char → List Char → Prop
  | nil : SpaceUnderscoreInsert [] []
  | keep (c : Char) {s t : List Char} :
      SpaceUnderscoreInsert s t → SpaceUnderscoreInsert (c :: s) (c :: t)
  | pad (c : Char) {s t : List Char} :
      c = ' ' ∨ c = '_' → SpaceUnderscoreInsert s t → SpaceUnderscoreInsert s (c :: t)

/-! ## Arithmetic helper lemmas -/

theorem wrap32_mem (x : Int) : -(2 ^ 31) ≤ wrap32 x ∧ wrap32 x < 2 ^ 31 := by
  unfold wrap32
  have h1 : (0 : Int) ≤ (x + 2 ^ 31) % 2 ^ 32 := Int.emod_nonneg _ (by norm_num)
  have h2 : (x + 2 ^ 31) % 2 ^ 32 < 2 ^ 32 := Int.emod_lt_of_pos _ (by norm_num)
  constructor <;> omega

theorem get_sum_of_rolls_mem (d : DiceRolls) :
    -(2 ^ 31) ≤ DiceRolls.get_sum_of_rolls d ∧ DiceRolls.get_sum_of_rolls d < 2 ^ 31 := by
  unfold DiceRolls.get_sum_of_rolls
  have key : ∀ (l : List DiceRoll) (t : Int), -(2 ^ 31) ≤ t ∧ t < 2 ^ 31 →
      -(2 ^ 31) ≤ l.foldl (fun total r => wrap32 (total + r.result)) t ∧
      l.foldl (fun total r => wrap32 (total + r.result)) t < 2 ^ 31 := by
    intro l
    induction l with
    | nil => intro t ht; exact ht
    | cons r rest ih =>
      intro t _
      exact ih (wrap32 (t + r.result)) (wrap32_mem _)
  exact key d.rolls 0 (by norm_num)

theorem decDigit_spec (m : Nat) (h : m < 10) :
    (decDigit m).isDigit = true ∧ (decDigit m).toNat - 48 = m := by
  interval_cases m <;> exact ⟨rfl, rfl⟩

theorem isDigit_ne (c : Char) (h : c.isDigit = true) :
    c ≠ '+' ∧ c ≠ '-' ∧ c ≠ 'd' := by
  refine ⟨?_, ?_, ?_⟩ <;> rintro rfl <;> simp at h

theorem natToRevDigits_zero (fuel : Nat) : natToRevDigits fuel 0 = [] := by
  cases fuel <;> simp [natToRevDigits]

theorem natToRevDigits_spec : ∀ (fuel n : Nat), 0 < n → n ≤ fuel →
    natToRevDigits fuel n ≠ [] ∧
    (∀ c ∈ natToRevDigits fuel n, c.isDigit = true) ∧
    digitsVal (natToRevDigits fuel n).reverse = n := by
  intro fuel
  induction fuel with
  | zero => intro n h1 h2; omega
  | succ fuel ih =>
    intro n h1 h2
    have hne : ¬ n = 0 := by omega
    have hd := decDigit_spec (n % 10) (Nat.mod_lt _ (by norm_num))
    by_cases hq : n / 10 = 0
    · have hlt : n < 10 := by omega
      have : natToRevDigits (fuel + 1) n = [decDigit (n % 10)] := by
        simp [natToRevDigits, hne, hq, natToRevDigits_zero]
      rw [this]
      refine ⟨by simp, by simpa using hd.1, ?_⟩
      simp [digitsVal, hd.2]
      omega
    · have hq1 : 0 < n / 10 := Nat.pos_of_ne_zero hq
      have hq2 : n / 10 ≤ fuel := by omega
      obtain ⟨hne2, hdig, hval⟩ := ih (n / 10) hq1 hq2
      have : natToRevDigits (fuel + 1) n = decDigit (n % 10) :: natToRevDigits fuel (n / 10) := by
        simp [natToRevDigits, hne]
      rw [this]
      refine ⟨by simp, ?_, ?_⟩
      · intro c hc
        rcases List.mem_cons.mp hc with h | h
        · exact h ▸ hd.1
        · exact hdig c h
      · have := List.foldl_append (fun acc c => 10 * acc + (c.toNat - 48)) 0
          (natToRevDigits fuel (n / 10)).reverse [decDigit (n % 10)]
        simp only [digitsVal, List.reverse_cons]
        rw [this]
        have hv : digitsVal (natToRevDigits fuel (n / 10)).reverse = n / 10 := hval
        simp only [digitsVal] at hv
        simp [hv, hd.2]
        omega

theorem natToString_spec (n : Nat) (h : 0 < n) :
    (natToString n).data ≠ [] ∧
    (∀ c ∈ (natToString n).data, c.isDigit = true) ∧
    digitsVal (natToString n).data = n := by
  obtain ⟨hne, hdig, hval⟩ := natToRevDigits_spec n n h (le_refl n)
  have hns : natToString n = String.mk (natToRevDigits n n).reverse := by
    simp [natToString]
    omega
  rw [hns]
  refine ⟨by simpa using hne, ?_, hval⟩
  intro c hc
  exact hdig c (List.mem_reverse.mp hc)

theorem parseI32_of_digits (l : List Char) (hne : l ≠ [])
    (hdig : ∀ c ∈ l, c.isDigit = true)
    (hrange : (digitsVal l : Int) ≤ 2 ^ 31 - 1) :
    parseI32 (String.mk l) = some ((digitsVal l : Int)) := by
  obtain ⟨c, cs, rfl⟩ := List.exists_cons_of_ne_nil hne
  have hc := isDigit_ne c (hdig c (by simp))
  unfold parseI32
  simp only [if_neg hc.1, if_neg hc.2.1]
  rw [if_pos ⟨by simp, by rw [List.all_eq_true]; exact hdig⟩]
  rw [if_pos ⟨by have := Int.ofNat_nonneg (digitsVal (c :: cs)); omega, by omega⟩]
  simp

theorem parseI32_neg_digits (l : List Char) (hne : l ≠ [])
    (hdig : ∀ c ∈ l, c.isDigit = true)
    (hrange : (digitsVal l : Int) ≤ 2 ^ 31) :
    parseI32 (String.mk ('-' :: l)) = some (-((digitsVal l : Int))) := by
  obtain ⟨c, cs, rfl⟩ := List.exists_cons_of_ne_nil hne
  unfold parseI32
  simp only [show (('-' : Char) = '+') = False from by decide,
             show (('-' : Char) = '-') = True from by decide, if_true, if_false]
  rw [if_pos ⟨by simp, by rw [List.all_eq_true]; exact hdig⟩]
  rw [if_pos ⟨by have := Int.ofNat_nonneg (digitsVal (c :: cs)); omega,
              by have := Int.ofNat_nonneg (digitsVal (c :: cs)); omega⟩]
  simp

theorem parseI32_intToString (n : Int) (h1 : -(2 ^ 31) ≤ n) (h2 : n < 2 ^ 31) :
    parseI32 (intToString n) = some n := by
  by_cases hn : n < 0
  · have hm : 0 < (-n).toNat := by omega
    obtain ⟨hne, hdig, hval⟩ := natToString_spec (-n).toNat hm
    have hdata : intToString n = String.mk ('-' :: (natToString (-n).toNat).data) := by
      simp only [intToString, if_pos hn]
      rfl
    have hiv : (digitsVal (natToString (-n).toNat).data : Int) = -n := by
      rw [hval]; omega
    rw [hdata, parseI32_neg_digits _ hne hdig (by omega), hiv]
    congr 1
    omega
  · by_cases h0 : n = 0
    · subst h0; rfl
    · have hm : 0 < n.toNat := by omega
      obtain ⟨hne, hdig, hval⟩ := natToString_spec n.toNat hm
      have hdata : intToString n = natToString n.toNat := by
        simp [intToString, hn]
      have hiv : (digitsVal (natToString n.toNat).data : Int) = n := by
        rw [hval]; omega
      rw [hdata,
        show natToString n.toNat = String.mk (natToString n.toNat).data from rfl,
        parseI32_of_digits _ hne hdig (by omega), hiv]

/-! ## Lemmas about the fragment splitter and one-sided dice -/

theorem splitAux_append_d (l tail : List Char) (h : ∀ c ∈ l, c ≠ 'd') :
    splitAux (l ++ 'd' :: tail) = (l, tail) := by
  induction l with
  | nil => simp [splitAux]
  | cons c cs ih =>
    have hc : c ≠ 'd' := h c (by simp)
    simp only [List.cons_append, splitAux, if_neg hc, List.append_eq]
    rw [ih (fun x hx => h x (by simp [hx]))]

theorem parseI32_append_d_none (l tail : List Char) (hne : l ≠ [])
    (hdig : ∀ c ∈ l, c.isDigit = true) :
    parseI32 (String.mk (l ++ 'd' :: tail)) = none := by
  obtain ⟨c, cs, rfl⟩ := List.exists_cons_of_ne_nil hne
  have hc := isDigit_ne c (hdig c (by simp))
  unfold parseI32
  simp only [List.cons_append, if_neg hc.1, if_neg hc.2.1]
  rw [if_neg]
  rintro ⟨-, hall⟩
  rw [List.all_eq_true] at hall
  have := hall 'd' (by simp)
  simp at this

theorem rollLoop_one_sided (g : RandSrc) (k : Nat) (sum : Int) (n : Nat) (h : 0 < n) :
    rollLoop g 1 n k sum = .error "gen_range called with low >= high" := by
  cases n with
  | zero => omega
  | succ m => rfl

example : solve_rpn_formula ["4", "2", "+"] = .ok 6 := rfl
example : solve_rpn_formula ["2", "2", "*", "4", "4", "*", "+", "4", "/"] = .ok 5 := rfl
example : solve_rpn_formula ["10", "3", "/"] = .ok 3 := rfl
example : solve_rpn_formula ["10", "4", "/"] = .ok 3 := rfl
example : solve_rpn_formula ["5", "0", "/"] = .error (divZeroMsg 5 0) := rfl
example : solve_rpn_formula [] = .ok 0 := rfl
example : resolve_roll_fragment lowSrc 0 "d1" = .error "gen_range called with low >= high" := rfl
example : resolve_roll_fragment lowSrc 0 "-5d6" = .ok (⟨[], ["0"], ["-5d6"]⟩, 0) := rfl
example : resolve_roll_fragment lowSrc 0 "2d6" =
    .ok (⟨[⟨6, 1⟩, ⟨6, 1⟩], ["2"], ["2d6"]⟩, 2) := rfl
example : resolve_roll_fragment lowSrc 0 "d%" =
    .ok (⟨[⟨100, 1⟩], ["1"], ["d%"]⟩, 1) := rfl
example : resolve_roll_fragment lowSrc 0 "xd6" = .error (countErrMsg "x") := rfl
example : resolve_roll_fragment lowSrc 0 "1dX" = .error (sidesErrMsg "X") := rfl
example : resolve_roll_fragment lowSrc 0 "42" = .ok (⟨[⟨0, 42⟩], ["42"], ["42"]⟩, 0) := rfl
example : roll lowSrc "2d6 + 3" = .ok ⟨[⟨6, 1⟩, ⟨6, 1⟩, ⟨0, 3⟩], ["2", "3", "+"], ["2d6", "3", "+"]⟩ := rfl

example : parse_into_rpn "3 + 4" = ["3", "4", "+"] := rfl
example : parse_into_rpn "3 + 4 * 6" = ["3", "4", "6", "*", "+"] := rfl
example : parse_into_rpn "3 + 4 × (2 − 1)" = ["3", "4", "2", "1", "−", "×", "+"] := rfl
example : parse_into_rpn "(2 − 1) × 3 + 4" = ["2", "1", "−", "3", "×", "4", "+"] := rfl
example : parse_into_rpn "ab + cd × (ef − gh)" = ["ab", "cd", "ef", "gh", "−", "×", "+"] := rfl
example : parse_into_rpn "(2d5 − 1d6) × 3d6 + 2d12" = ["2d5", "1d6", "−", "3d6", "×", "2d12", "+"] := rfl
example : parse_into_rpn "2_d_6" = ["2d6"] := rfl
example : parse_into_rpn "2\td6" = ["2\td6"] := rfl
example : parse_into_infix ["3", "4", "+"] = .ok "( 3 + 4 )" := rfl
example : parse_into_infix ["3", "4", "2", "1", "−", "×", "+"] = .ok "( 3 + ( 4 × ( 2 − 1 ) ) )" := rfl
example : parse_into_infix ["2", "1", "−", "3", "×", "4", "+"] = .ok "( ( ( 2 − 1 ) × 3 ) + 4 )" := rfl
example : DiceRolls.get_formula_string_as_infix ⟨[], ["3", "4", "6", "*", "+"], []⟩ = .ok "[3 + [4 * 6]]" := rfl

example : parseI32 "-5" = some (-5) := rfl
example : parseI32 "007" = some 7 := rfl
example : parseI32 "2d6" = none := rfl
example : parseI32 "2147483647" = some 2147483647 := rfl
example : parseI32 "2147483648" = none := rfl
example : parseI32 "-2147483648" = some (-2147483648) := rfl
example : parseI32 "" = none := rfl
example : parseI32 "+" = none := rfl
example : intToString (-120) = "-120" := rfl
example : intToString 0 = "0" := rfl
example : intToString 37 = "37" := rfl
example : match_token "÷" = 4 ∧ match_token "x" = 0 ∧ match_token "%" = -3 := by
  exact ⟨rfl, rfl, rfl⟩

/-! ## Claim theorems -/

/-- Claim C1 (code bug): the claim asks that for `NdS` (S > 1) every value of
the closed interval `[1, S]` be achievable.  The code draws with
`gen_range(1, dice_sides)`, which samples the half-open interval
`[1, sides)`: no valid random source can ever produce the maximal face.
Concretely, for the fragment `"1d6"` no valid source yields an outcome 6. -/
theorem C1_max_face_unreachable :
    ¬ ∃ g : RandSrc, ValidSrc g ∧ ∃ (k : Nat) (dr : DiceRolls) (k2 : Nat),
      resolve_roll_fragment g k "1d6" = .ok (dr, k2) ∧
      ∃ r ∈ dr.rolls, r.result = 6 := by
  rintro ⟨g, hv, k, dr, k2, hok, r, hr, hres⟩
  have hred : resolve_roll_fragment g k "1d6" =
      .ok (⟨[⟨6, g k 1 6⟩], [ intToString (wrap32 (0 + g k 1 6))], ["1d6"]⟩, k + 1) := rfl
  rw [hred] at hok
  simp only [Except.ok.injEq, Prod.mk.injEq] at hok
  obtain ⟨hd, -⟩ := hok
  subst hd
  simp only [List.mem_singleton] at hr
  subst hr
  simp only at hres
  have := (hv k 1 6 (by norm_num)).2
  omega

/-- Claim C1, positive side: the parts of the claim that do hold for
`"1d6"`: one outcome per die and the outcome in the half-open interval
`[1, 6)`, with the numeric formula equal to the decimal string of the sum
of outcomes. -/
theorem C1_positive_parts (g : RandSrc) (hv : ValidSrc g) (k : Nat) :
    ∃ (dr : DiceRolls) (k2 : Nat),
      resolve_roll_fragment g k "1d6" = .ok (dr, k2) ∧
      dr.rolls.length = 1 ∧
      (∀ r ∈ dr.rolls, 1 ≤ r.result ∧ r.result < 6) ∧
      dr.formula = [ intToString ( DiceRolls.get_sum_of_rolls dr)] := by
  refine ⟨⟨[⟨6, g k 1 6⟩], [ intToString (wrap32 (0 + g k 1 6))], ["1d6"]⟩, k + 1, rfl, rfl, ?_, ?_⟩
  · intro r hr
    simp only [List.mem_singleton] at hr
    subst hr
    have h1 := (hv k 1 6 (by norm_num)).1
    have h2 := (hv k 1 6 (by norm_num)).2
    exact ⟨h1, h2⟩
  · simp only [DiceRolls.get_sum_of_rolls, List.foldl_cons, List.foldl_nil]

/-- Claim C1, witness for the positive-side theorem at the all-ones
source. -/
theorem C1_positive_parts_witness :
    ∃ (dr : DiceRolls) (k2 : Nat),
      resolve_roll_fragment lowSrc 0 "1d6" = .ok (dr, k2) ∧
      dr.rolls.length = 1 ∧
      (∀ r ∈ dr.rolls, 1 ≤ r.result ∧ r.result < 6) ∧
      dr.formula = [ intToString ( DiceRolls.get_sum_of_rolls dr)] :=
  C1_positive_parts lowSrc (fun _ _ _ h => ⟨le_refl _, h⟩) 0

/-- Claim C2 counterexample: resolving the one-sided die `"d1"` does not
succeed (so no `{0, 1}`-valued outcome is produced): the code reaches
`gen_range(1, 1)`, whose `low < high` precondition fails. -/
theorem C2_cex : resolve_roll_fragment lowSrc 0 "d1" =
    .error "gen_range called with low >= high" := rfl

/-- Claim C2 as amended: resolving `"d1"`, or `"Nd1"` for any count
`1 ≤ N < 2^31`, always aborts with rand's empty-range failure, for every
random source. -/
theorem C2_one_sided_die_aborts :
    (∀ (g : RandSrc) (k : Nat),
      resolve_roll_fragment g k "d1" = .error "gen_range called with low >= high") ∧
    (∀ (g : RandSrc) (k : Nat) (N : Nat), 1 ≤ N → (N : Int) < 2 ^ 31 →
      resolve_roll_fragment g k (natToString N ++ "d1") =
        .error "gen_range called with low >= high") := by
  constructor
  · intro g k; rfl
  · intro g k N h1 h2
    obtain ⟨hne, hdig, hval⟩ := natToString_spec N h1
    have h0 : parseI32 (natToString N ++ "d1") = none := by
      rw [show natToString N ++ "d1" = String.mk ((natToString N).data ++ 'd' :: ['1']) from rfl]
      exact parseI32_append_d_none _ _ hne hdig
    obtain ⟨c, cs, hcs⟩ := List.exists_cons_of_ne_nil hne
    have hcd : ¬ c = 'd' := (isDigit_ne c (hdig c (by rw [hcs]; simp))).2.2
    have hsplit : splitDice ((natToString N ++ "d1").data) = ((natToString N).data, ['1']) := by
      rw [show (natToString N ++ "d1").data = (natToString N).data ++ 'd' :: ['1'] from rfl, hcs]
      simp only [List.cons_append, splitDice, if_neg hcd]
      rw [← List.cons_append, splitAux_append_d]
      intro x hx
      exact (isDigit_ne x (hdig x (by rw [hcs]; exact hx))).2.2
    have hcount : parseI32 (String.mk ((natToString N).data)) = some ((N : Int)) := by
      rw [parseI32_of_digits _ hne hdig (by rw [hval]; omega), hval]
    have htn : ((N : Int)).toNat = N := by omega
    unfold resolve_roll_fragment
    rw [h0]
    simp only [hsplit]
    rw [hcount]
    simp only [show parseI32 (String.mk ['1']) = some 1 from rfl]
    rw [htn]
    rw [rollLoop_one_sided g k 0 N h1]

/-- Claim C2 witness: the amended C2 theorem applied at concrete inputs
(`"d1"` at draw index 1, and `"2d1"` through the general count case). -/
theorem C2_one_sided_die_aborts_witness :
    resolve_roll_fragment lowSrc 1 "d1" = .error "gen_range called with low >= high" ∧
    resolve_roll_fragment lowSrc 0 "2d1" = .error "gen_range called with low >= high" := by
  constructor
  · exact C2_one_sided_die_aborts.1 lowSrc 1
  · have h := C2_one_sided_die_aborts.2 lowSrc 0 2 (by norm_num) (by norm_num)
    exact h

/-- Claim C3 counterexample: the divide-by-zero case is a `panic!`
(modelled as `Except.error` with the panic's message), not a recoverable
`DivisionByZero` error value — the evaluator has no recoverable error
path at all. -/
theorem C3_cex : solve_rpn_formula ["5", "0", "/"] = .error (divZeroMsg 5 0) := rfl

/-- Unfolding step for `solveLoop` on a token that parses as an integer
(the definitional equation, stated by hand because the equation generator
balks at the nested matches). -/
theorem solveLoop_parse_step (stack : List Int) (e : String) (rest : List String) (n : Int)
    (h : parseI32 e = some n) :
    solveLoop stack (e :: rest) = solveLoop (n :: stack) rest := by
  have hrfl : solveLoop stack (e :: rest) =
      (match parseI32 e with
       | some m => solveLoop (m :: stack) rest
       | none =>
         match stack with
         | [] => Except.error "Left hand token in evaluation doesn't exist"
         | [_] => Except.error "Right hand token in evaluation doesn't exist"
         | a :: b :: tail =>
           if match_token e = 4 then
             if a = 0 then Except.error (divZeroMsg b a)
             else solveLoop (divRound b a :: tail) rest
           else if match_token e = 3 then solveLoop (wrap32 (b * a) :: tail) rest
           else if match_token e = 2 then solveLoop (wrap32 (b + a) :: tail) rest
           else if match_token e = 1 then solveLoop (wrap32 (b - a) :: tail) rest
           else Except.error ("Invalid operator: `" ++ e ++ "`")) := rfl
  rw [hrfl, h]

/-- Claim C3 as amended: for every in-range dividend `n`, evaluating
`[n, "0", "/"]` aborts with the divide-by-zero panic message; in
particular no numeric result (0, infinity, or otherwise) is produced. -/
theorem C3_div_by_zero_panics (n : Int) (h1 : -(2 ^ 31) ≤ n) (h2 : n < 2 ^ 31) :
    solve_rpn_formula [ intToString n, "0", "/"] = .error (divZeroMsg n 0) := by
  unfold solve_rpn_formula
  rw [solveLoop_parse_step [] _ _ n (parseI32_intToString n h1 h2)]
  rfl

/-- Claim C3 witness: the amended theorem applied at dividend 7. -/
theorem C3_div_by_zero_panics_witness :
    solve_rpn_formula ["7", "0", "/"] = .error (divZeroMsg 7 0) := by
  have h := C3_div_by_zero_panics 7 (by norm_num) (by norm_num)
  exact h

/-- Claim C4 counterexample: the fragment `"-5d6"` has the count part
`"-5"`, which is not a non-negative integer, yet the resolver does not
fail: `parse::<i32>` accepts the sign, `0..-5` is an empty loop, and a
roll result with no outcomes and sum 0 is returned. -/
theorem C4_cex :
    resolve_roll_fragment lowSrc 0 "-5d6" = .ok (⟨[], ["0"], ["-5d6"]⟩, 0) ∧
    (splitDice ("-5d6".data)).1 = ['-', '5'] ∧
    parseI32 "-5" = some (-5) := ⟨rfl, rfl, rfl⟩

/-- Claim C4 as amended: the count part must parse as an `i32` — sign
included, so negative counts are accepted and merely produce zero rolls —
and only a count part that fails `i32` parsing altogether makes the
resolver abort with the "invalid dice count" message. -/
theorem C4_count_policy :
    (∀ (g : RandSrc) (k : Nat) (frag : String),
       parseI32 frag = none →
       parseI32 (String.mk (splitDice frag.data).1) = none →
       resolve_roll_fragment g k frag = .error (countErrMsg (String.mk (splitDice frag.data).1))) ∧
    (∀ (g : RandSrc) (k : Nat),
       resolve_roll_fragment g k "-5d6" = .ok (⟨[], ["0"], ["-5d6"]⟩, k)) := by
  constructor
  · intro g k frag h1 h2
    unfold resolve_roll_fragment
    rw [h1]
    simp only []
    rw [h2]
  · intro g k
    rfl

/-- Claim C4 witness: the amended theorem applied to `"xd6"` (count part
`"x"`, which fails `i32` parsing) and to `"-5d6"` at draw index 3. -/
theorem C4_count_policy_witness :
    resolve_roll_fragment lowSrc 0 "xd6" = .error (countErrMsg "x") ∧
    resolve_roll_fragment lowSrc 3 "-5d6" = .ok (⟨[], ["0"], ["-5d6"]⟩, 3) := by
  constructor
  · have h := C4_count_policy.1 lowSrc 0 "xd6" rfl rfl
    exact h
  · exact C4_count_policy.2 lowSrc 3

/-- Claim C5: division in the RPN evaluator pushes the nearest-integer
rounding of the quotient, ties away from zero: `["10","3","/"]` evaluates
to 3 and the tie case `["10","4","/"]` (exact quotient 2.5) also to 3. -/
theorem C5_division_rounding :
    solve_rpn_formula ["10", "3", "/"] = .ok 3 ∧
    solve_rpn_formula ["10", "4", "/"] = .ok 3 := ⟨rfl, rfl⟩

/-- Claim C6: multiplication binds tighter than addition through the whole
pipeline: `"3 + 4 * 6"` parses to the postfix vector
`["3","4","6","*","+"]`, which evaluates to 27. -/
theorem C6_precedence :
    parse_into_rpn "3 + 4 * 6" = ["3", "4", "6", "*", "+"] ∧
    solve_rpn_formula ( parse_into_rpn "3 + 4 * 6") = .ok 27 := ⟨rfl, rfl⟩

/-- Claim C10: the public token classifier of `src/tokens.rs` and the
private one of `src/lib.rs` agree on every input string. -/
theorem C10_match_token_agree : ∀ token : String, Tokens.match_token token = match_token token :=
  fun _ => rfl

/-- Inserting spaces or underscores is invisible to the parser's
preprocessing strip. -/
theorem strip_insert {s t : List Char} (h : SpaceUnderscoreInsert s t) :
    removeChar '_' (removeChar ' ' t) = removeChar '_' (removeChar ' ' s) := by
  induction h with
  | nil => rfl
  | @keep c s t h ih =>
    by_cases h1 : c = ' '
    · subst h1
      simpa [removeChar, List.filter_cons] using ih
    · by_cases h2 : c = '_'
      · subst h2
        simpa [removeChar, List.filter_cons] using ih
      · have e1 : removeChar '_' (removeChar ' ' (c :: t)) = c :: removeChar '_' (removeChar ' ' t) := by
          simp [removeChar, List.filter_cons, h1, h2]
        have e2 : removeChar '_' (removeChar ' ' (c :: s)) = c :: removeChar '_' (removeChar ' ' s) := by
          simp [removeChar, List.filter_cons, h1, h2]
        rw [e1, e2, ih]
  | pad c hc h ih =>
    rcases hc with rfl | rfl <;> simpa [removeChar, List.filter_cons] using ih

/-- Claim C7 counterexample: a tab is whitespace but is not stripped by
`parse_into_rpn`, so inserting it changes the parse. -/
theorem C7_cex : parse_into_rpn "2\td6" ≠ parse_into_rpn "2d6" := by decide

/-- Claim C7 as amended: `parse_into_rpn` strips exactly the ASCII space
and underscore characters, so inserting any spaces or underscores anywhere
in the input leaves the postfix sequence unchanged (other whitespace such
as tab or newline is not stripped). -/
theorem C7_space_underscore_insensitive (s t : String)
    (h : SpaceUnderscoreInsert s.data t.data) :
    parse_into_rpn t = parse_into_rpn s := by
  unfold parse_into_rpn
  rw [strip_insert h]

/-- Claim C7 witness: the amended theorem applied to `"2d6"` and
`"2_d_6"`. -/
theorem C7_space_underscore_insensitive_witness :
    parse_into_rpn "2_d_6" = parse_into_rpn "2d6" :=
  C7_space_underscore_insensitive "2d6" "2_d_6"
    (.keep '2' (.pad '_' (Or.inr rfl) (.keep 'd' (.pad '_' (Or.inr rfl) (.keep '6' .nil)))))

/-- After replacing every occurrence of the two-character pattern `[x, y]`
by the single character `z`, no occurrence of `[x, y]` remains, provided
`z` differs from both pattern characters. -/
theorem replacePair_no_self (x y z : Char) (hzx : z ≠ x) (hzy : z ≠ y) :
    ∀ (n : Nat) (l : List Char), l.length ≤ n → ¬ [x, y] <:+: replacePair x y [z] l := by
  intro n
  induction n with
  | zero =>
    intro l hl
    have hnil : l = [] := List.length_eq_zero.mp (Nat.le_zero.mp hl)
    subst hnil
    simp [replacePair, List.infix_nil]
  | succ n ih =>
    intro l hl
    match l with
    | [] => simp [replacePair, List.infix_nil]
    | [c1] =>
      rw [show replacePair x y [z] [c1] = [c1] from rfl]
      intro hinf
      have := hinf.length_le
      simp at this
    | c1 :: c2 :: rest2 =>
      simp only [List.length_cons] at hl
      by_cases hm : c1 = x ∧ c2 = y
      · rw [show replacePair x y [z] (c1 :: c2 :: rest2) = [z] ++ replacePair x y [z] rest2
            from by simp [replacePair, hm]]
        intro hinf
        rcases List.infix_cons_iff.mp hinf with hpre | hinf2
        · exact hzx (List.cons_prefix_cons.mp hpre).1.symm
        · exact ih rest2 (by omega) hinf2
      · rw [show replacePair x y [z] (c1 :: c2 :: rest2) = c1 :: replacePair x y [z] (c2 :: rest2)
            from by simp [replacePair, hm]]
        intro hinf
        rcases List.infix_cons_iff.mp hinf with hpre | hinf2
        · rcases List.cons_prefix_cons.mp hpre with ⟨hx, hy⟩
          match rest2 with
          | [] =>
            rw [show replacePair x y [z] [c2] = [c2] from rfl] at hy
            exact hm ⟨hx.symm, (List.cons_prefix_cons.mp hy).1.symm⟩
          | c3 :: rest3 =>
            by_cases hm2 : c2 = x ∧ c3 = y
            · rw [show replacePair x y [z] (c2 :: c3 :: rest3) = [z] ++ replacePair x y [z] rest3
                  from by simp [replacePair, hm2]] at hy
              exact hzy (List.cons_prefix_cons.mp hy).1.symm
            · rw [show replacePair x y [z] (c2 :: c3 :: rest3) =
                    c2 :: replacePair x y [z] (c3 :: rest3)
                  from by simp [replacePair, hm2]] at hy
              exact hm ⟨hx.symm, (List.cons_prefix_cons.mp hy).1.symm⟩
        · exact ih (c2 :: rest2) (by simp only [List.length_cons]; omega) hinf2

/-- Replacing `[x, y]` by `z` cannot create a new occurrence of a pattern
`[u, v]` that was absent, provided `z` differs from both `u` and `v`. -/
theorem replacePair_preserve (x y z u v : Char) (hzu : z ≠ u) (hzv : z ≠ v) :
    ∀ (n : Nat) (l : List Char), l.length ≤ n → ¬ [u, v] <:+: l →
      ¬ [u, v] <:+: replacePair x y [z] l := by
  intro n
  induction n with
  | zero =>
    intro l hl h
    have hnil : l = [] := List.length_eq_zero.mp (Nat.le_zero.mp hl)
    subst hnil
    simp [replacePair]
  | succ n ih =>
    intro l hl h
    match l with
    | [] => simp [replacePair]
    | [c1] =>
      rw [show replacePair x y [z] [c1] = [c1] from rfl]
      exact h
    | c1 :: c2 :: rest2 =>
      simp only [List.length_cons] at hl
      by_cases hm : c1 = x ∧ c2 = y
      · rw [show replacePair x y [z] (c1 :: c2 :: rest2) = [z] ++ replacePair x y [z] rest2
            from by simp [replacePair, hm]]
        intro hinf
        rcases List.infix_cons_iff.mp hinf with hpre | hinf2
        · exact hzu (List.cons_prefix_cons.mp hpre).1.symm
        · exact ih rest2 (by omega)
            (fun hr => h (List.infix_cons (List.infix_cons hr))) hinf2
      · rw [show replacePair x y [z] (c1 :: c2 :: rest2) = c1 :: replacePair x y [z] (c2 :: rest2)
            from by simp [replacePair, hm]]
        intro hinf
        rcases List.infix_cons_iff.mp hinf with hpre | hinf2
        · rcases List.cons_prefix_cons.mp hpre with ⟨hu, hv2⟩
          match rest2 with
          | [] =>
            rw [show replacePair x y [z] [c2] = [c2] from rfl] at hv2
            have hvc := (List.cons_prefix_cons.mp hv2).1
            refine h ?_
            rw [hu, hvc]
          | c3 :: rest3 =>
            by_cases hm2 : c2 = x ∧ c3 = y
            · rw [show replacePair x y [z] (c2 :: c3 :: rest3) = [z] ++ replacePair x y [z] rest3
                  from by simp [replacePair, hm2]] at hv2
              exact hzv (List.cons_prefix_cons.mp hv2).1.symm
            · rw [show replacePair x y [z] (c2 :: c3 :: rest3) =
                    c2 :: replacePair x y [z] (c3 :: rest3)
                  from by simp [replacePair, hm2]] at hv2
              have hvc := (List.cons_prefix_cons.mp hv2).1
              refine h ?_
              rw [hu, hvc]
              exact ⟨[], c3 :: rest3, rfl⟩
        · exact ih (c2 :: rest2) (by simp only [List.length_cons]; omega)
            (fun hr => h (List.infix_cons hr)) hinf2

/-- Claim C8 counterexample: on the postfix formula `["3","4","6","*","+"]`
the infix display replaces both bracket pairs with square brackets — the
inner pair does not remain round, and two `[` appear. -/
theorem C8_cex :
    DiceRolls.get_formula_string_as_infix
      ⟨[], ["3", "4", "6", "*", "+"], ["3", "4", "6", "*", "+"]⟩ = .ok "[3 + [4 * 6]]" ∧
    DiceRolls.get_rolls_formula_string_as_infix
      ⟨[], ["3", "4", "6", "*", "+"], ["3", "4", "6", "*", "+"]⟩ = .ok "[3 + [4 * 6]]" ∧
    "[3 + [4 * 6]]".data.count '[' = 2 := ⟨rfl, rfl, rfl⟩

/-- Claim C8 as amended: the display layer replaces every occurrence of
`"( "` and `" )"` (Rust's `str::replace` replaces all matches), so the
rendered string retains no round bracket pair in the renderer's
space-delimited form — all pairs become square, not only the outermost. -/
theorem C8_all_pairs_squared (d : DiceRolls) (s : String)
    (h : DiceRolls.get_formula_string_as_infix d = .ok s ∨
         DiceRolls.get_rolls_formula_string_as_infix d = .ok s) :
    ¬ ['(', ' '] <:+: s.data ∧ ¬ [' ', ')'] <:+: s.data := by
  have key : ∀ s0 : String,
      s = rustReplacePair ' ' ')' [']'] (rustReplacePair '(' ' ' ['['] s0) →
      ¬ ['(', ' '] <:+: s.data ∧ ¬ [' ', ')'] <:+: s.data := by
    intro s0 hs
    have hdata : s.data = replacePair ' ' ')' [']'] (replacePair '(' ' ' ['['] s0.data) := by
      rw [hs]; rfl
    rw [hdata]
    constructor
    · exact replacePair_preserve ' ' ')' ']' '(' ' ' (by decide) (by decide)
        (replacePair '(' ' ' ['['] s0.data).length (replacePair '(' ' ' ['['] s0.data)
        (le_refl _)
        (replacePair_no_self '(' ' ' '[' (by decide) (by decide) s0.data.length s0.data (le_refl _))
    · exact replacePair_no_self ' ' ')' ']' (by decide) (by decide)
        (replacePair '(' ' ' ['['] s0.data).length (replacePair '(' ' ' ['['] s0.data) (le_refl _)
  rcases h with h | h
  · unfold DiceRolls.get_formula_string_as_infix at h
    cases hp : parse_into_infix d.formula with
    | error m => rw [hp] at h; exact absurd h (by simp)
    | ok s0 =>
      rw [hp] at h
      simp only [Except.ok.injEq] at h
      exact key s0 h.symm
  · unfold DiceRolls.get_rolls_formula_string_as_infix at h
    cases hp : parse_into_infix d.rolls_formula with
    | error m => rw [hp] at h; exact absurd h (by simp)
    | ok s0 =>
      rw [hp] at h
      simp only [Except.ok.injEq] at h
      exact key s0 h.symm

/-- Claim C8 witness: the amended theorem applied to the concrete rendering
of `["3","4","6","*","+"]`. -/
theorem C8_all_pairs_squared_witness :
    ¬ ['(', ' '] <:+: "[3 + [4 * 6]]".data ∧ ¬ [' ', ')'] <:+: "[3 + [4 * 6]]".data :=
  C8_all_pairs_squared ⟨[], ["3", "4", "6", "*", "+"], ["3", "4", "6", "*", "+"]⟩
    "[3 + [4 * 6]]" (Or.inl rfl)

/-- Definitional equation of `resolve_rolls_vector` on the empty vector. -/
theorem resolve_rolls_vector_nil (g : RandSrc) (k : Nat) :
    resolve_rolls_vector g k [] = .ok (⟨[], [], []⟩, k) := rfl

/-- Definitional equation of `resolve_rolls_vector` on a cons cell (stated
by hand because the equation generator balks at the nested matches). -/
theorem resolve_rolls_vector_cons (g : RandSrc) (k : Nat) (e : String) (rest : List String) :
    resolve_rolls_vector g k (e :: rest) =
      (if 0 < match_token e then
        match resolve_rolls_vector g k rest with
        | .error m => .error m
        | .ok (d, k1) => .ok (⟨d.rolls, e :: d.formula, e :: d.rolls_formula⟩, k1)
      else
        match resolve_roll_fragment g k e with
        | .error m => .error m
        | .ok (dr, k1) =>
          match resolve_rolls_vector g k1 rest with
          | .error m => .error m
          | .ok (d, k2) =>
            .ok (⟨dr.rolls ++ d.rolls,
                  intToString ( DiceRolls.get_sum_of_rolls dr) :: d.formula,
                  e :: d.rolls_formula⟩, k2)) := rfl

/-- Invariant of `resolve_rolls_vector`: on success the notation-preserving
formula is exactly the input vector, the numeric formula has the same
length, carries the operator tokens unchanged at the operator positions,
and at every other position holds the decimal string of the resolved
fragment's rolled `i32` sum, which re-parses as that integer. -/
theorem resolve_rolls_vector_invariant (g : RandSrc) :
    ∀ (v : List String) (k k2 : Nat) (d : DiceRolls),
      resolve_rolls_vector g k v = .ok (d, k2) →
      d.rolls_formula = v ∧ d.formula.length = v.length ∧
      (∀ (i : Nat) (e f : String), v[i]? = some e → d.formula[i]? = some f →
        (0 < match_token e → f = e) ∧
        (¬ 0 < match_token e →
          ∃ (dr : DiceRolls) (k0 k1 : Nat),
            resolve_roll_fragment g k0 e = .ok (dr, k1) ∧
            f = intToString ( DiceRolls.get_sum_of_rolls dr) ∧
            parseI32 f = some ( DiceRolls.get_sum_of_rolls dr))) := by
  intro v
  induction v with
  | nil =>
    intro k k2 d h
    rw [resolve_rolls_vector_nil] at h
    simp only [Except.ok.injEq, Prod.mk.injEq] at h
    obtain ⟨hd, -⟩ := h
    subst hd
    refine ⟨rfl, rfl, ?_⟩
    intro i e f he hf
    simp at he
  | cons e rest ih =>
    intro k k2 d h
    rw [resolve_rolls_vector_cons] at h
    by_cases hm : 0 < match_token e
    · rw [if_pos hm] at h
      cases hr : resolve_rolls_vector g k rest with
      | error m => rw [hr] at h; exact absurd h (by simp)
      | ok p =>
        obtain ⟨d0, k1⟩ := p
        rw [hr] at h
        simp only [Except.ok.injEq, Prod.mk.injEq] at h
        obtain ⟨hd, -⟩ := h
        subst hd
        obtain ⟨ih1, ih2, ih3⟩ := ih k k1 d0 hr
        refine ⟨by simp [ih1], by simp [ih2], ?_⟩
        intro i e' f he hf
        cases i with
        | zero =>
          simp only [List.getElem?_cons_zero, Option.some.injEq] at he hf
          subst he
          subst hf
          exact ⟨fun _ => rfl, fun hn => absurd hm hn⟩
        | succ i =>
          simp only [List.getElem?_cons_succ] at he hf
          exact ih3 i e' f he hf
    · rw [if_neg hm] at h
      cases hfr : resolve_roll_fragment g k e with
      | error m => rw [hfr] at h; exact absurd h (by simp)
      | ok p =>
        obtain ⟨dr, k1⟩ := p
        simp only [hfr] at h
        cases hr : resolve_rolls_vector g k1 rest with
        | error m => simp only [hr] at h; exact absurd h (by simp)
        | ok p2 =>
          obtain ⟨d0, k3⟩ := p2
          simp only [hr] at h
          simp only [Except.ok.injEq, Prod.mk.injEq] at h
          obtain ⟨hd, -⟩ := h
          subst hd
          obtain ⟨ih1, ih2, ih3⟩ := ih k1 k3 d0 hr
          refine ⟨by simp [ih1], by simp [ih2], ?_⟩
          intro i e' f he hf
          cases i with
          | zero =>
            simp only [List.getElem?_cons_zero, Option.some.injEq] at he hf
            subst he
            subst hf
            refine ⟨fun hp => absurd hp hm, fun _ => ?_⟩
            obtain ⟨hlo, hhi⟩ := get_sum_of_rolls_mem dr
            exact ⟨dr, k, k1, hfr, rfl, by rw [parseI32_intToString _ hlo hhi]⟩
          | succ i =>
            simp only [List.getElem?_cons_succ] at he hf
            exact ih3 i e' f he hf

/-- Claim C9: whenever `roll` succeeds, the notation-preserving formula is
exactly the parsed postfix vector (original operand fragments and operator
tokens in postfix order), the numeric formula is parallel to it (same
length, identical operators at identical positions), and every
non-operator entry of the numeric formula is the decimal string of the
fragment's rolled `i32` sum, which re-parses as an integer. -/
theorem C9_formula_parallel (g : RandSrc) (input : String) (d : DiceRolls)
    (h : roll g input = .ok d) :
    d.rolls_formula = parse_into_rpn (rustTrim input) ∧
    d.formula.length = ( parse_into_rpn (rustTrim input)).length ∧
    (∀ (i : Nat) (e f : String),
      ( parse_into_rpn (rustTrim input))[i]? = some e → d.formula[i]? = some f →
      (0 < match_token e → f = e) ∧
      (¬ 0 < match_token e →
        ∃ (dr : DiceRolls) (k0 k1 : Nat),
          resolve_roll_fragment g k0 e = .ok (dr, k1) ∧
          f = intToString ( DiceRolls.get_sum_of_rolls dr) ∧
          parseI32 f = some ( DiceRolls.get_sum_of_rolls dr))) := by
  unfold roll at h
  cases hr : resolve_rolls_vector g 0 ( parse_into_rpn (rustTrim input)) with
  | error m => rw [hr] at h; exact absurd h (by simp)
  | ok p =>
    obtain ⟨d0, k2⟩ := p
    rw [hr] at h
    simp only [Except.ok.injEq] at h
    subst h
    exact resolve_rolls_vector_invariant g _ 0 k2 d0 hr

/-- Claim C9 witness: the theorem applied to the concrete successful roll
of `"2d6 + 3"` under the all-low random source. -/
theorem C9_formula_parallel_witness :
    DiceRolls.rolls_formula ⟨[⟨6, 1⟩, ⟨6, 1⟩, ⟨0, 3⟩], ["2", "3", "+"], ["2d6", "3", "+"]⟩ =
      parse_into_rpn (rustTrim "2d6 + 3") ∧
    (DiceRolls.formula ⟨[⟨6, 1⟩, ⟨6, 1⟩, ⟨0, 3⟩], ["2", "3", "+"], ["2d6", "3", "+"]⟩).length =
      ( parse_into_rpn (rustTrim "2d6 + 3")).length := by
  obtain ⟨h1, h2, -⟩ := C9_formula_parallel lowSrc "2d6 + 3"
    ⟨[⟨6, 1⟩, ⟨6, 1⟩, ⟨0, 3⟩], ["2", "3", "+"], ["2d6", "3", "+"]⟩ rfl
  exact ⟨h1, h2⟩
